import Mathlib

/-!
Verification of the record store of `nav-polars` (`src/polar.rs`).

The store (`PolarService`) keeps one YAML file per record in one of two
directories, `polars_dir` (active) and `archived_dir` (archived), and
implements list / get / find_by_polar_id / create / update / delete /
archive / restore on top of the filesystem.

Shallow embedding choices:
* a directory is a `List Entry`; an entry carries the filename split into
  `stem`/`ext` (ids are assumed dot-free, so Rust's `file_prefix` and the
  stem coincide), whether it is a regular file, whether its metadata is
  readable, whether opening it fails with an I/O error, and the outcome of
  decoding its bytes as a Polar document (`FileData`);
* `f64` fields are modelled as `ℚ`, `u8`/`u16` fields as `ℕ`: the store
  never computes with them, it only moves them between files and memory;
* serde serialization omits the `archived` field (`skip_serializing`) and
  deserialization defaults it to `false`; all other fields round-trip, so a
  written file's decoded document is the record with `archived := false`;
* an operation returns `Res α`: `ok` with the result (mutators return the
  new state; an error result leaves the state untouched, exactly as the
  code returns before performing any write), `err` with the wrapped
  `PolarError`/IO error, or `panicked` for an aborting `unwrap()`.
  Filesystem primitives on well-formed paths (write, remove, rename) are
  modelled on their success path; per-entry open failures, the one place a
  read error escapes the error channel, are modelled by `openFails`.
-/

/-- Nested sub-record `Foil` of `polar.rs`. -/
structure Foil where
  speed_ratio : ℚ
  twa_min : ℚ
  twa_max : ℚ
  twa_merge : ℚ
  tws_min : ℚ
  tws_max : ℚ
  tws_merge : ℚ
deriving DecidableEq, Repr

/-- Nested sub-record `Hull` of `polar.rs`. -/
structure Hull where
  speed_ratio : ℚ
deriving DecidableEq, Repr

/-- Nested sub-record `Penalty` of `polar.rs`. -/
structure Penalty where
  ratio : ℚ
  timer : ℕ
deriving DecidableEq, Repr

/-- Nested sub-record `PenaltyBoundaries` of `polar.rs`. -/
structure PenaltyBoundaries where
  lw : Penalty
  hw : Penalty
deriving DecidableEq, Repr

/-- Nested sub-record `PenaltyCase` of `polar.rs`. -/
structure PenaltyCase where
  std_timer_sec : ℕ
  std_ratio : ℚ
  pro_timer_sec : ℕ
  pro_ratio : ℚ
  std : PenaltyBoundaries
deriving DecidableEq, Repr

/-- Nested sub-record `Winch` of `polar.rs`. -/
structure Winch where
  tack : PenaltyCase
  gybe : PenaltyCase
  sail_change : PenaltyCase
  lws : ℕ
  hws : ℕ
deriving DecidableEq, Repr

/-- Nested sub-record `Sail` of `polar.rs`. -/
structure Sail where
  id : ℕ
  name : String
  speed : List (List ℚ)
deriving DecidableEq, Repr

/-- The central record type `Polar` of `polar.rs`. `id` is the optional
filename-derived primary key, `polar_id` the secondary id (serialized under
the distinct key `_id`), `archived` carries `#[serde(default,
skip_serializing)]`. -/
structure Polar where
  id : Option String
  polar_id : ℕ
  archived : Bool
  label : String
  global_speed_ratio : ℚ
  ice_speed_ratio : ℚ
  auto_sail_change_tolerance : ℚ
  bad_sail_tolerance : ℚ
  max_speed : ℚ
  foil : Foil
  hull : Hull
  winch : Winch
  tws : List ℕ
  twa : List ℕ
  sail : List Sail
deriving DecidableEq, Repr

/-- The document `serde_yaml::to_writer` emits for a record: every field of
the struct except `archived`, which is `skip_serializing` and defaults to
`false` when absent on decode. -/
def Polar.serialized (p : Polar) : Polar :=
  { p with archived := false }

/-- Error enum `PolarError` of `polar.rs`, extended with the generic
`ioError` case standing for any `std::io`/serde error wrapped by `anyhow`. -/
inductive PolarError where
  | alreadyExists (id : String)
  | notFound (id : String)
  | idIsMandatory
  | ioError
deriving DecidableEq, Repr

/-- What decoding a file's bytes as a Polar document yields: a document,
nothing (`serde_yaml` reads an empty file as `None` when the target is
`Option<Polar>`, and fails when it is `Polar`), or a decode error. -/
inductive FileData where
  | doc (p : Polar)
  | blank
  | bad
deriving DecidableEq, Repr

/-- One directory entry as the store observes it through `read_dir`:
filename stem and extension, `metadata().is_file()`, whether metadata is
readable at all, whether `File::open` fails, and its decoded content. -/
structure Entry where
  stem : String
  ext : Option String
  isFile : Bool
  metaOk : Bool
  openFails : Bool
  data : FileData
deriving DecidableEq, Repr

/-- Whether an entry is the filesystem object at path `<id>.yaml`. -/
def isYamlName (id : String) (e : Entry) : Bool :=
  e.stem == id && e.ext == some "yaml"

/-- Rust's `path.exists()` for the path `<id>.yaml` inside a directory. -/
def dirPathExists (d : List Entry) (id : String) : Bool :=
  d.any (isYamlName id)

/-- The entry at path `<id>.yaml`, if any. -/
def dirFind (d : List Entry) (id : String) : Option Entry :=
  d.find? (isYamlName id)

/-- Rust's `fs::remove_file` on `<id>.yaml` (success path). -/
def dirRemove (d : List Entry) (id : String) : List Entry :=
  d.filter fun e => !(isYamlName id e)

/-- Placing an entry in a directory under its own name, replacing whatever
filesystem object held that name — the effect of `fs::rename`'s destination
side and of `OpenOptions::create(true).truncate(true)`. -/
def dirPut (d : List Entry) (e : Entry) : List Entry :=
  (d.filter fun x => !(x.stem == e.stem && x.ext == e.ext)) ++ [e]

/-- The entry `save_polar` leaves at `<id>.yaml`: a fresh regular file whose
bytes decode to the record's serialized document. -/
def writtenFile (id : String) (p : Polar) : Entry :=
  { stem := id, ext := some "yaml", isFile := true, metaOk := true,
    openFails := false, data := .doc p.serialized }

/-- Rust's `save_polar` (success path): create/truncate `<id>.yaml` and
serialize the record into it. -/
def dirWrite (d : List Entry) (id : String) (p : Polar) : List Entry :=
  dirPut d (writtenFile id p)

/-- Result of a store operation: success, a wrapped error (`PolarError` or
I/O), or a panic (`unwrap()` on an `Err`). Mutating operations return the
new filesystem state on success; on `err` the state is unchanged. -/
inductive Res (α : Type) where
  | ok (a : α)
  | err (e : PolarError)
  | panicked
deriving DecidableEq, Repr

/-- The state of `PolarService`: the contents of its two directories. -/
structure PolarService where
  polars_dir : List Entry
  archived_dir : List Entry
deriving DecidableEq, Repr

/-- The record as `list`/`get` return it: `id` overwritten from the
filename, `archived` from the directory the file was found in. -/
def overrideMeta (p : Polar) (id : String) (arch : Bool) : Polar :=
  { p with id := some id, archived := arch }

/-- The per-directory loop of `PolarService::list`: skip entries with
unreadable metadata, non-files and non-`.yaml` extensions; `unwrap()` the
`File::open` (PANICS on an open failure); push decoded documents with
`id`/`archived` overridden; log and skip decode failures. -/
def listDir : List Entry → Bool → Res (List Polar)
  | [], _ => .ok []
  | e :: rest, arch =>
    if e.metaOk then
      if e.isFile then
        match e.ext with
        | some x =>
          if x == "yaml" then
            if e.openFails then
              .panicked
            else
              match e.data with
              | .doc p =>
                match listDir rest arch with
                | .ok l => .ok (overrideMeta p e.stem arch :: l)
                | r => r
              | _ => listDir rest arch
          else listDir rest arch
        | none => listDir rest arch
      else listDir rest arch
    else listDir rest arch

namespace PolarService

/-- Translation of `PolarService::list`. -/
def list (s : PolarService) (archived : Option Bool) : Res (List Polar) :=
  match archived with
  | some true => listDir s.archived_dir true
  | _ => listDir s.polars_dir false

/-- Reading one record at `<id>.yaml` in a directory, as `get` does after
its existence check: open the file (`?` propagates an open failure), decode
an `Option<Polar>` (`?` propagates a decode failure), override
`id`/`archived`. -/
def readAt (d : List Entry) (id : String) (arch : Bool) : Res (Option Polar) :=
  match dirFind d id with
  | none => .err .ioError
  | some e =>
    if e.openFails then .err .ioError
    else
      match e.data with
      | .doc p => .ok (some (overrideMeta p id arch))
      | .blank => .ok none
      | .bad => .err .ioError

/-- Translation of `PolarService::get`: active directory first, then
archived, `Ok(None)` when the path exists in neither. -/
def get (s : PolarService) (polar_id : String) : Res (Option Polar) :=
  if dirPathExists s.polars_dir polar_id then
    readAt s.polars_dir polar_id false
  else if dirPathExists s.archived_dir polar_id then
    readAt s.archived_dir polar_id true
  else
    .ok none

/-- Translation of `PolarService::find_by_polar_id`: scan the active list,
and only on no match the archived list. -/
def find_by_polar_id (s : PolarService) (polar_id : ℕ) : Res (Option Polar) :=
  match s.list none with
  | .ok l =>
    match l.find? (fun x => x.polar_id == polar_id) with
    | some polar => .ok (some polar)
    | none =>
      match s.list (some true) with
      | .ok l2 => .ok (l2.find? (fun x => x.polar_id == polar_id))
      | .err e => .err e
      | .panicked => .panicked
  | .err e => .err e
  | .panicked => .panicked

/-- Translation of `PolarService::get_id`. -/
def get_id (p : Polar) : Res String :=
  match p.id with
  | some id => .ok id
  | none => .err .idIsMandatory

/-- Translation of `PolarService::create`: mandatory id, existence check in
the active directory only, then `save_polar`. -/
def create (s : PolarService) (polar : Polar) : Res PolarService :=
  match polar.id with
  | none => .err .idIsMandatory
  | some id =>
    if dirPathExists s.polars_dir id then
      .err (.alreadyExists id)
    else
      .ok { s with polars_dir := dirWrite s.polars_dir id polar }

/-- Translation of `PolarService::update`: not-found when no active file;
when the incoming record carries a different id, remove the old file and
write at the new id's path; otherwise overwrite in place. -/
def update (s : PolarService) (polar_id : String) (polar : Polar) :
    Res PolarService :=
  if !dirPathExists s.polars_dir polar_id then
    .err (.notFound polar_id)
  else
    match polar.id with
    | some id =>
      if id != polar_id then
        .ok { s with
              polars_dir := dirWrite (dirRemove s.polars_dir polar_id) id polar }
      else
        .ok { s with polars_dir := dirWrite s.polars_dir polar_id polar }
    | none =>
      .ok { s with polars_dir := dirWrite s.polars_dir polar_id polar }

/-- Translation of `PolarService::delete`: active directory first, archived
as fallback, not-found when neither holds the file. -/
def delete (s : PolarService) (polar_id : String) : Res PolarService :=
  if dirPathExists s.polars_dir polar_id then
    .ok { s with polars_dir := dirRemove s.polars_dir polar_id }
  else if dirPathExists s.archived_dir polar_id then
    .ok { s with archived_dir := dirRemove s.archived_dir polar_id }
  else
    .err (.notFound polar_id)

/-- Translation of `PolarService::archive`: not-found when no active file,
otherwise `fs::rename` into the archived directory — which replaces any
destination file, no existence check is made there. -/
def archive (s : PolarService) (polar_id : String) : Res PolarService :=
  match dirFind s.polars_dir polar_id with
  | none => .err (.notFound polar_id)
  | some e =>
    .ok { polars_dir := dirRemove s.polars_dir polar_id,
          archived_dir := dirPut s.archived_dir e }

/-- Translation of `PolarService::restore`: not-found when no archived
file, already-exists when the active path is taken, otherwise `fs::rename`
back into the active directory. -/
def restore (s : PolarService) (polar_id : String) : Res PolarService :=
  match dirFind s.archived_dir polar_id with
  | none => .err (.notFound polar_id)
  | some e =>
    if dirPathExists s.polars_dir polar_id then
      .err (.alreadyExists polar_id)
    else
      .ok { polars_dir := dirPut s.polars_dir e,
            archived_dir := dirRemove s.archived_dir polar_id }

end PolarService

/-- The cross-directory uniqueness invariant of the spec: no id has a file
`<id>.yaml` in both the active and the archived directory. -/
def consistent (s : PolarService) : Bool :=
  s.polars_dir.all fun e =>
    !(e.ext == some "yaml" && dirPathExists s.archived_dir e.stem)

/-! ## Directory lemmas -/

lemma isYamlName_iff {id : String} {e : Entry} :
    isYamlName id e = true ↔ e.stem = id ∧ e.ext = some "yaml" := by
  simp [isYamlName]

lemma dirPathExists_iff {d : List Entry} {id : String} :
    dirPathExists d id = true ↔
      ∃ e ∈ d, e.stem = id ∧ e.ext = some "yaml" := by
  simp [dirPathExists, List.any_eq_true, isYamlName_iff]

lemma dirFind_eq_none_iff {d : List Entry} {id : String} :
    dirFind d id = none ↔ dirPathExists d id = false := by
  rw [dirFind, List.find?_eq_none]
  constructor
  · intro h
    cases hx : dirPathExists d id
    · rfl
    · obtain ⟨e, he, h1, h2⟩ := dirPathExists_iff.mp hx
      exact absurd (isYamlName_iff.mpr ⟨h1, h2⟩) (by simpa using h e he)
  · intro h e he hy
    obtain ⟨h1, h2⟩ := isYamlName_iff.mp hy
    have : dirPathExists d id = true := dirPathExists_iff.mpr ⟨e, he, h1, h2⟩
    simp [h] at this

lemma dirFind_spec {d : List Entry} {id : String} {e : Entry}
    (h : dirFind d id = some e) :
    e ∈ d ∧ e.stem = id ∧ e.ext = some "yaml" :=
  ⟨List.mem_of_find?_eq_some h, isYamlName_iff.mp (List.find?_some h)⟩

lemma dirPathExists_of_find {d : List Entry} {id : String} {e : Entry}
    (h : dirFind d id = some e) : dirPathExists d id = true := by
  obtain ⟨h1, h2, h3⟩ := dirFind_spec h
  exact dirPathExists_iff.mpr ⟨e, h1, h2, h3⟩

lemma dirFind_exists_of_pathExists {d : List Entry} {id : String}
    (h : dirPathExists d id = true) : ∃ e, dirFind d id = some e := by
  cases hf : dirFind d id
  · rw [dirFind_eq_none_iff] at hf
    simp [hf] at h
  · exact ⟨_, rfl⟩

lemma mem_dirRemove {d : List Entry} {id : String} {x : Entry} :
    x ∈ dirRemove d id ↔ x ∈ d ∧ ¬(x.stem = id ∧ x.ext = some "yaml") := by
  simp only [dirRemove, List.mem_filter, Bool.not_eq_true', ← isYamlName_iff]
  simp

lemma mem_dirPut {d : List Entry} {e x : Entry} :
    x ∈ dirPut d e ↔
      (x ∈ d ∧ ¬(x.stem = e.stem ∧ x.ext = e.ext)) ∨ x = e := by
  simp [dirPut, List.mem_filter, List.mem_append]
  tauto

lemma dirPathExists_remove_self {d : List Entry} {id : String} :
    dirPathExists (dirRemove d id) id = false := by
  cases hx : dirPathExists (dirRemove d id) id
  · rfl
  · obtain ⟨e, he, h1, h2⟩ := dirPathExists_iff.mp hx
    exact absurd ⟨h1, h2⟩ (mem_dirRemove.mp he).2

lemma dirPathExists_remove_false {d : List Entry} {id j : String}
    (h : dirPathExists d j = false) :
    dirPathExists (dirRemove d id) j = false := by
  cases hx : dirPathExists (dirRemove d id) j
  · rfl
  · obtain ⟨e, he, h1, h2⟩ := dirPathExists_iff.mp hx
    have : dirPathExists d j = true :=
      dirPathExists_iff.mpr ⟨e, (mem_dirRemove.mp he).1, h1, h2⟩
    simp [h] at this

lemma dirPathExists_put_yaml {d : List Entry} {e : Entry} {j : String}
    (he : e.ext = some "yaml") :
    dirPathExists (dirPut d e) j = true ↔
      j = e.stem ∨ dirPathExists d j = true := by
  constructor
  · intro h
    obtain ⟨x, hx, h1, h2⟩ := dirPathExists_iff.mp h
    rcases mem_dirPut.mp hx with ⟨hxd, _⟩ | rfl
    · exact Or.inr (dirPathExists_iff.mpr ⟨x, hxd, h1, h2⟩)
    · exact Or.inl h1.symm
  · rintro (rfl | h)
    · exact dirPathExists_iff.mpr ⟨e, mem_dirPut.mpr (Or.inr rfl), rfl, he⟩
    · obtain ⟨x, hx, h1, h2⟩ := dirPathExists_iff.mp h
      by_cases hn : x.stem = e.stem ∧ x.ext = e.ext
      · exact dirPathExists_iff.mpr
          ⟨e, mem_dirPut.mpr (Or.inr rfl), hn.1 ▸ h1, he⟩
      · exact dirPathExists_iff.mpr ⟨x, mem_dirPut.mpr (Or.inl ⟨hx, hn⟩), h1, h2⟩

lemma dirFind_put_self {d : List Entry} {e : Entry}
    (he : e.ext = some "yaml") :
    dirFind (dirPut d e) e.stem = some e := by
  rw [dirFind, dirPut, List.find?_append]
  have h1 : (d.filter fun x => !(x.stem == e.stem && x.ext == e.ext)).find?
      (isYamlName e.stem) = none := by
    rw [List.find?_eq_none]
    intro x hx hy
    obtain ⟨hs, hx2⟩ := isYamlName_iff.mp hy
    have := (List.mem_filter.mp hx).2
    simp [hs, hx2, he] at this
  rw [h1]
  simp [isYamlName_iff, he]

lemma dirPathExists_write {d : List Entry} {id j : String} {p : Polar} :
    dirPathExists (dirWrite d id p) j = true ↔
      j = id ∨ dirPathExists d j = true := by
  rw [dirWrite, dirPathExists_put_yaml rfl]
  simp [writtenFile]

lemma dirFind_write_self {d : List Entry} {id : String} {p : Polar} :
    dirFind (dirWrite d id p) id = some (writtenFile id p) :=
  dirFind_put_self rfl

/-! ## Consistency lemmas -/

lemma consistent_iff {s : PolarService} :
    consistent s = true ↔
      ∀ e ∈ s.polars_dir, e.ext = some "yaml" →
        dirPathExists s.archived_dir e.stem = false := by
  simp only [consistent, List.all_eq_true, Bool.not_eq_true', Bool.and_eq_false_iff,
    beq_eq_false_iff_ne, ne_eq]
  constructor
  · intro h e he hy
    rcases h e he with h1 | h1
    · exact absurd hy h1
    · exact h1
  · intro h e he
    by_cases hy : e.ext = some "yaml"
    · exact Or.inr (h e he hy)
    · exact Or.inl hy

lemma consistent_no_both {s : PolarService} {j : String}
    (hs : consistent s = true) (h : dirPathExists s.polars_dir j = true) :
    dirPathExists s.archived_dir j = false := by
  obtain ⟨e, he, h1, h2⟩ := dirPathExists_iff.mp h
  exact h1 ▸ consistent_iff.mp hs e he h2

/-! ## Evaluation lemmas for `readAt` and `get` -/

lemma readAt_find_doc {d : List Entry} {id : String} {arch : Bool}
    {e : Entry} {p : Polar} (hf : dirFind d id = some e)
    (ho : e.openFails = false) (hd : e.data = .doc p) :
    PolarService.readAt d id arch = .ok (some (overrideMeta p id arch)) := by
  unfold PolarService.readAt
  simp only [hf]
  simp [ho, hd]

lemma readAt_ok_some {d : List Entry} {id : String} {arch : Bool} {r : Polar}
    (h : PolarService.readAt d id arch = .ok (some r)) :
    ∃ e p, dirFind d id = some e ∧ e.openFails = false ∧
      e.data = FileData.doc p ∧ r = overrideMeta p id arch := by
  unfold PolarService.readAt at h
  cases hf : dirFind d id with
  | none => rw [hf] at h; simp at h
  | some e =>
    simp only [hf] at h
    cases ho : e.openFails with
    | true => simp [ho] at h
    | false =>
      simp only [ho, Bool.false_eq_true, if_false] at h
      cases hd : e.data with
      | doc p =>
        simp only [hd, Res.ok.injEq, Option.some.injEq] at h
        exact ⟨e, p, rfl, ho, hd, h.symm⟩
      | blank => simp [hd] at h
      | bad => simp [hd] at h

lemma overrideMeta_archived (p : Polar) (id : String) (arch : Bool) :
    (overrideMeta p id arch).archived = arch := rfl

lemma get_active_of_ok_some {s : PolarService} {id : String} {r : Polar}
    (h : s.get id = .ok (some r)) (har : r.archived = false) :
    dirPathExists s.polars_dir id = true ∧
      PolarService.readAt s.polars_dir id false = .ok (some r) := by
  unfold PolarService.get at h
  cases hex : dirPathExists s.polars_dir id with
  | true => rw [hex] at h; simp at h; exact ⟨rfl, h⟩
  | false =>
    rw [hex] at h
    simp only [Bool.false_eq_true, if_false] at h
    cases hex2 : dirPathExists s.archived_dir id with
    | true =>
      rw [hex2] at h
      simp only [if_true] at h
      obtain ⟨e, p, _, _, _, hr⟩ := readAt_ok_some h
      rw [hr, overrideMeta_archived] at har
      cases har
    | false => rw [hex2] at h; simp at h

/-! ## Concrete records for witnesses and counterexamples -/

/-- Concrete nested values used to build witness records. -/
def benchFoil : Foil := ⟨1, 0, 90, 45, 0, 40, 20⟩

/-- Concrete penalty case used to build witness records. -/
def benchPenaltyBox : PenaltyCase := ⟨300, 1/2, 75, 3/4, ⟨⟨1/2, 300⟩, ⟨3/4, 75⟩⟩⟩

/-- Concrete winch used to build witness records. -/
def benchWinch : Winch := ⟨benchPenaltyBox, benchPenaltyBox, benchPenaltyBox, 10, 30⟩

/-- A concrete well-formed record, parameterized by primary and secondary id. -/
def benchPolar (id : Option String) (pid : ℕ) : Polar :=
  { id := id, polar_id := pid, archived := false, label := "boat",
    global_speed_ratio := 1, ice_speed_ratio := 1/2,
    auto_sail_change_tolerance := 1/10, bad_sail_tolerance := 1/5,
    max_speed := 40, foil := benchFoil, hull := ⟨1⟩, winch := benchWinch,
    tws := [0, 10, 20], twa := [30, 60, 90],
    sail := [⟨0, "Jib", [[1, 1], [1, 1]]⟩] }

/-! ## C2 — create then get -/

/-- C2: for every record `p` with `p.id = some id`, when `create p` succeeds
a subsequent `get id` returns `p` with only `archived` forced to `false`. -/
theorem create_then_get (s s' : PolarService) (p : Polar) (id : String)
    (hid : p.id = some id) (h : s.create p = .ok s') :
    s'.get id = .ok (some { p with archived := false }) := by
  unfold PolarService.create at h
  simp only [hid] at h
  cases hex : dirPathExists s.polars_dir id with
  | true => simp [hex] at h
  | false =>
    simp only [hex, Bool.false_eq_true, if_false, Res.ok.injEq] at h
    subst h
    have hpe : dirPathExists (dirWrite s.polars_dir id p) id = true :=
      dirPathExists_write.mpr (Or.inl rfl)
    unfold PolarService.get
    rw [hpe]
    simp only [if_true]
    rw [readAt_find_doc dirFind_write_self rfl rfl]
    cases p with
    | mk pi p2 p3 p4 p5 p6 p7 p8 p9 p10 p11 p12 p13 p14 p15 =>
      simp only [Option.some.injEq] at hid
      simp [overrideMeta, Polar.serialized, writtenFile, hid]

/-- Witness for C2 at a concrete state and record. -/
theorem create_then_get_witness :
    PolarService.get
      { polars_dir := dirWrite [] "boat1" (benchPolar (some "boat1") 3),
        archived_dir := [] } "boat1" =
      .ok (some { benchPolar (some "boat1") 3 with archived := false }) :=
  create_then_get ⟨[], []⟩ _ (benchPolar (some "boat1") 3) "boat1" rfl rfl

/-! ## C4 — create's error cases -/

/-- C4: `create p` fails with `idIsMandatory` exactly when `p.id` is absent;
it fails with `alreadyExists id` exactly when `p.id = some id` and a file
`<id>.yaml` exists in the active directory (the archived directory plays no
role in either equivalence); otherwise it writes the record into the active
directory. An `err` result carries no new state: the code returns before
`save_polar` runs, so the existing file's content is untouched. -/
theorem create_cases (s : PolarService) (p : Polar) :
    (s.create p = .err .idIsMandatory ↔ p.id = none) ∧
    (∀ id, s.create p = .err (.alreadyExists id) ↔
      p.id = some id ∧ dirPathExists s.polars_dir id = true) ∧
    (∀ id, p.id = some id → dirPathExists s.polars_dir id = false →
      s.create p = .ok { s with polars_dir := dirWrite s.polars_dir id p }) := by
  cases hid : p.id with
  | none =>
    refine ⟨by simp [PolarService.create, hid], fun id => ?_,
      fun id h => by simp [hid] at h⟩
    simp [PolarService.create, hid]
  | some i =>
    cases hex : dirPathExists s.polars_dir i with
    | true =>
      refine ⟨by simp [PolarService.create, hid, hex], fun id => ?_,
        fun id h1 h2 => ?_⟩
      · constructor
        · intro h
          simp only [PolarService.create, hid, hex, if_true] at h
          simp only [Res.err.injEq, PolarError.alreadyExists.injEq] at h
          subst h
          exact ⟨rfl, hex⟩
        · rintro ⟨h1, h2⟩
          injection h1 with h1
          subst h1
          simp [PolarService.create, hid, hex]
      · injection h1 with h1
        subst h1
        rw [hex] at h2
        cases h2
    | false =>
      refine ⟨by simp [PolarService.create, hid, hex], fun id => ?_,
        fun id h1 h2 => ?_⟩
      · constructor
        · intro h
          simp [PolarService.create, hid, hex] at h
        · rintro ⟨h1, h2⟩
          injection h1 with h1
          subst h1
          rw [hex] at h2
          cases h2
      · injection h1 with h1
        subst h1
        simp [PolarService.create, hid, hex]

/-! ## C5 — restore's error cases -/

/-- C5: `restore id` fails with `notFound` when no archived file exists,
fails with `alreadyExists` when the active path is taken (returning before
any rename, so the archived entry is untouched), and otherwise moves the
archived entry into the active directory. -/
theorem restore_cases (s : PolarService) (id : String) :
    (dirPathExists s.archived_dir id = false →
      s.restore id = .err (.notFound id)) ∧
    (dirPathExists s.archived_dir id = true →
      dirPathExists s.polars_dir id = true →
      s.restore id = .err (.alreadyExists id)) ∧
    (∀ e, dirFind s.archived_dir id = some e →
      dirPathExists s.polars_dir id = false →
      s.restore id = .ok { polars_dir := dirPut s.polars_dir e,
                           archived_dir := dirRemove s.archived_dir id }) := by
  refine ⟨fun h => ?_, fun h1 h2 => ?_, fun e hf h2 => ?_⟩
  · have hf : dirFind s.archived_dir id = none := dirFind_eq_none_iff.mpr h
    simp [PolarService.restore, hf]
  · obtain ⟨e, hf⟩ := dirFind_exists_of_pathExists h1
    simp [PolarService.restore, hf, h2]
  · simp [PolarService.restore, hf, h2]

/-! ## C1 — the cross-directory uniqueness invariant -/

/-- C1 (amended): from a consistent state — no id with a `<id>.yaml` file in
both directories — `delete`, `archive` and `restore` preserve consistency;
`create` preserves it provided the created id has no archived file; `update`
preserves it provided the incoming record's id, where present and different
from the path id, has no archived file. (Unconditional preservation fails:
see the counterexample, `create` never consults the archived directory.) -/
theorem ops_preserve_unique_id (s : PolarService) (hs : consistent s = true) :
    (∀ id s', s.delete id = .ok s' → consistent s' = true) ∧
    (∀ id s', s.archive id = .ok s' → consistent s' = true) ∧
    (∀ id s', s.restore id = .ok s' → consistent s' = true) ∧
    (∀ p id s', p.id = some id → dirPathExists s.archived_dir id = false →
      s.create p = .ok s' → consistent s' = true) ∧
    (∀ pid p s',
      (∀ id, p.id = some id → id ≠ pid →
        dirPathExists s.archived_dir id = false) →
      s.update pid p = .ok s' → consistent s' = true) := by
  refine ⟨fun id s' h => ?_, fun id s' h => ?_, fun id s' h => ?_,
    fun p id s' hid hnar h => ?_, fun pid p s' hcond h => ?_⟩
  · unfold PolarService.delete at h
    cases hex : dirPathExists s.polars_dir id with
    | true =>
      simp only [hex, if_true, Res.ok.injEq] at h
      subst h
      rw [consistent_iff]
      intro e he hy
      exact consistent_iff.mp hs e (mem_dirRemove.mp he).1 hy
    | false =>
      simp only [hex, Bool.false_eq_true, if_false] at h
      cases hex2 : dirPathExists s.archived_dir id with
      | true =>
        simp only [hex2, if_true, Res.ok.injEq] at h
        subst h
        rw [consistent_iff]
        intro e he hy
        exact dirPathExists_remove_false (consistent_iff.mp hs e he hy)
      | false => simp [hex2] at h
  · unfold PolarService.archive at h
    cases hf : dirFind s.polars_dir id with
    | none => simp [hf] at h
    | some e =>
      simp only [hf, Res.ok.injEq] at h
      subst h
      obtain ⟨hmem, hstem, hext⟩ := dirFind_spec hf
      rw [consistent_iff]
      intro x hx hy
      obtain ⟨hxd, hxn⟩ := mem_dirRemove.mp hx
      have h1 : dirPathExists s.archived_dir x.stem = false :=
        consistent_iff.mp hs x hxd hy
      have h2 : x.stem ≠ e.stem := by
        rw [hstem]
        intro hc
        exact hxn ⟨hc, hy⟩
      cases hq : dirPathExists (dirPut s.archived_dir e) x.stem with
      | false => rfl
      | true =>
        rcases (dirPathExists_put_yaml hext).mp hq with hc | hc
        · exact absurd hc h2
        · rw [h1] at hc
          cases hc
  · unfold PolarService.restore at h
    cases hf : dirFind s.archived_dir id with
    | none => simp [hf] at h
    | some e =>
      simp only [hf] at h
      cases hex : dirPathExists s.polars_dir id with
      | true => simp [hex] at h
      | false =>
        simp only [hex, Bool.false_eq_true, if_false, Res.ok.injEq] at h
        subst h
        obtain ⟨hmem, hstem, hext⟩ := dirFind_spec hf
        rw [consistent_iff]
        intro x hx hy
        rcases mem_dirPut.mp hx with ⟨hxd, _⟩ | rfl
        · exact dirPathExists_remove_false (consistent_iff.mp hs x hxd hy)
        · rw [hstem]
          exact dirPathExists_remove_self
  · unfold PolarService.create at h
    simp only [hid] at h
    cases hex : dirPathExists s.polars_dir id with
    | true => simp [hex] at h
    | false =>
      simp only [hex, Bool.false_eq_true, if_false, Res.ok.injEq] at h
      subst h
      rw [consistent_iff]
      intro x hx hy
      rcases mem_dirPut.mp hx with ⟨hxd, _⟩ | rfl
      · exact consistent_iff.mp hs x hxd hy
      · simpa [writtenFile] using hnar
  · unfold PolarService.update at h
    cases hex : dirPathExists s.polars_dir pid with
    | false => simp [hex] at h
    | true =>
      simp only [hex, Bool.not_true, Bool.false_eq_true, if_false] at h
      have hnarp : dirPathExists s.archived_dir pid = false :=
        consistent_no_both hs hex
      cases hid : p.id with
      | none =>
        simp only [hid, Res.ok.injEq] at h
        subst h
        rw [consistent_iff]
        intro x hx hy
        rcases mem_dirPut.mp hx with ⟨hxd, _⟩ | rfl
        · exact consistent_iff.mp hs x hxd hy
        · simpa [writtenFile] using hnarp
      | some nid =>
        by_cases hne : nid = pid
        · subst hne
          simp only [hid, bne_self_eq_false, Bool.false_eq_true, if_false,
            Res.ok.injEq] at h
          subst h
          rw [consistent_iff]
          intro x hx hy
          rcases mem_dirPut.mp hx with ⟨hxd, _⟩ | rfl
          · exact consistent_iff.mp hs x hxd hy
          · simpa [writtenFile] using hnarp
        · have hb : (nid != pid) = true := by
            simp [bne_iff_ne, hne]
          simp only [hid, hb, if_true, Res.ok.injEq] at h
          subst h
          have hnar : dirPathExists s.archived_dir nid = false :=
            hcond nid hid hne
          rw [consistent_iff]
          intro x hx hy
          rcases mem_dirPut.mp hx with ⟨hxd, _⟩ | rfl
          · exact consistent_iff.mp hs x (mem_dirRemove.mp hxd).1 hy
          · simpa [writtenFile] using hnar

/-- A concrete consistent state: one active record, nothing archived. -/
def oneActive : PolarService :=
  { polars_dir := [writtenFile "boat1" (benchPolar (some "boat1") 3)],
    archived_dir := [] }

/-- Witness for C1's amended theorem at a concrete consistent state. -/
theorem ops_preserve_unique_id_witness :
    consistent oneActive = true ∧
    (∀ id s', PolarService.archive oneActive id = .ok s' →
      consistent s' = true) :=
  ⟨rfl, (ops_preserve_unique_id oneActive rfl).2.1⟩

/-- A concrete state whose only record is archived. -/
def oneArchived : PolarService :=
  { polars_dir := [],
    archived_dir := [writtenFile "boat1" (benchPolar (some "boat1") 3)] }

/-- Counterexample to C1 as stated: from the consistent state with only an
archived `boat1.yaml`, `create` (which checks the active directory only)
succeeds and leaves `boat1.yaml` in both directories at once. -/
theorem create_breaks_unique_id :
    consistent oneArchived = true ∧
    PolarService.create oneArchived (benchPolar (some "boat1") 7) =
      .ok { polars_dir := dirWrite [] "boat1" (benchPolar (some "boat1") 7),
            archived_dir := oneArchived.archived_dir } ∧
    dirPathExists (dirWrite [] "boat1" (benchPolar (some "boat1") 7))
      "boat1" = true ∧
    dirPathExists oneArchived.archived_dir "boat1" = true ∧
    consistent
      { polars_dir := dirWrite [] "boat1" (benchPolar (some "boat1") 7),
        archived_dir := oneArchived.archived_dir } = false :=
  ⟨rfl, rfl, rfl, rfl, rfl⟩

/-! ## C6 — update -/

lemma get_write (d d2 : List Entry) (id : String) (p : Polar)
    (hid : p.id = some id) :
    PolarService.get ⟨dirWrite d id p, d2⟩ id =
      .ok (some { p with archived := false }) := by
  have hpe : dirPathExists (dirWrite d id p) id = true :=
    dirPathExists_write.mpr (Or.inl rfl)
  unfold PolarService.get
  dsimp only
  rw [hpe]
  simp only [if_true]
  rw [readAt_find_doc dirFind_write_self rfl rfl]
  cases p with
  | mk p1 p2 p3 p4 p5 p6 p7 p8 p9 p10 p11 p12 p13 p14 p15 =>
    simp only [Option.some.injEq] at hid
    simp [overrideMeta, Polar.serialized, writtenFile, hid]

/-- C6 (amended): `update pid p` fails with `notFound` when no active
`<pid>.yaml` exists; when `p.id = some nid` with `nid ≠ pid` it removes the
old file and writes `p` at `<nid>.yaml`, after which `get nid` returns the
updated content and `get pid` returns not-found PROVIDED no archived
`<pid>.yaml` exists (`get` falls back to the archived directory, see the
counterexample); when `p.id` is absent or equal to `pid` it overwrites the
file in place. -/
theorem update_cases (s : PolarService) (pid : String) (p : Polar) :
    (dirPathExists s.polars_dir pid = false →
      s.update pid p = .err (.notFound pid)) ∧
    (∀ nid, p.id = some nid → nid ≠ pid →
      dirPathExists s.polars_dir pid = true →
      s.update pid p =
        .ok { s with
              polars_dir := dirWrite (dirRemove s.polars_dir pid) nid p } ∧
      (dirPathExists s.archived_dir pid = false →
        PolarService.get
          { s with polars_dir := dirWrite (dirRemove s.polars_dir pid) nid p }
          pid = .ok none) ∧
      PolarService.get
        { s with polars_dir := dirWrite (dirRemove s.polars_dir pid) nid p }
        nid = .ok (some { p with archived := false })) ∧
    ((p.id = some pid ∨ p.id = none) → dirPathExists s.polars_dir pid = true →
      s.update pid p = .ok { s with polars_dir := dirWrite s.polars_dir pid p }) := by
  refine ⟨fun h => ?_, fun nid hid hne hex => ?_, fun hor hex => ?_⟩
  · simp [PolarService.update, h]
  · have hb : (nid != pid) = true := by simp [bne_iff_ne, hne]
    refine ⟨by simp [PolarService.update, hex, hid, hb], fun harch => ?_,
      get_write _ _ nid p hid⟩
    have h1 : dirPathExists (dirWrite (dirRemove s.polars_dir pid) nid p)
        pid = false := by
      cases hq : dirPathExists (dirWrite (dirRemove s.polars_dir pid) nid p)
          pid with
      | false => rfl
      | true =>
        rcases dirPathExists_write.mp hq with hc | hc
        · exact absurd hc.symm hne
        · simp [dirPathExists_remove_self] at hc
    unfold PolarService.get
    dsimp only
    rw [h1, harch]
    simp
  · rcases hor with h | h
    · simp [PolarService.update, hex, h, bne_self_eq_false]
    · simp [PolarService.update, hex, h]

/-- A concrete state with `boat1.yaml` in both directories, the archived
copy carrying a different secondary id. -/
def bothDirs : PolarService :=
  { polars_dir := [writtenFile "boat1" (benchPolar (some "boat1") 3)],
    archived_dir := [writtenFile "boat1" (benchPolar (some "boat1") 5)] }

/-- Counterexample to C6 as stated: renaming `boat1` to `boat2` by update
succeeds, but `get "boat1"` afterwards does NOT return not-found — it
returns the archived `boat1` record, because `get` falls back to the
archived directory. -/
theorem update_rename_get_not_none :
    PolarService.update bothDirs "boat1" (benchPolar (some "boat2") 3) =
      .ok { polars_dir :=
              dirWrite (dirRemove bothDirs.polars_dir "boat1") "boat2"
                (benchPolar (some "boat2") 3),
            archived_dir := bothDirs.archived_dir } ∧
    PolarService.get
      { polars_dir :=
          dirWrite (dirRemove bothDirs.polars_dir "boat1") "boat2"
            (benchPolar (some "boat2") 3),
        archived_dir := bothDirs.archived_dir } "boat1" =
      .ok (some (overrideMeta (benchPolar (some "boat1") 5).serialized
        "boat1" true)) ∧
    PolarService.get
      { polars_dir :=
          dirWrite (dirRemove bothDirs.polars_dir "boat1") "boat2"
            (benchPolar (some "boat2") 3),
        archived_dir := bothDirs.archived_dir } "boat1" ≠ .ok none :=
  ⟨rfl, rfl, by decide⟩

/-! ## C3 — archive then restore round trip -/

/-- C3: whenever `get id` returns a record with `archived = false`,
`archive id` then `restore id` both succeed, the file at `<id>.yaml` in the
active directory is afterwards the very same entry as before (byte-for-byte
content), and `get id` returns the same record, still with
`archived = false`. -/
theorem archive_restore_roundtrip (s : PolarService) (id : String)
    (r : Polar) (hget : s.get id = .ok (some r)) (har : r.archived = false) :
    ∃ s1 s2, s.archive id = .ok s1 ∧ s1.restore id = .ok s2 ∧
      dirFind s2.polars_dir id = dirFind s.polars_dir id ∧
      s2.get id = .ok (some r) := by
  obtain ⟨hex, hread⟩ := get_active_of_ok_some hget har
  obtain ⟨e, p, hf, ho, hd, hr⟩ := readAt_ok_some hread
  obtain ⟨hmem, hstem, hext⟩ := dirFind_spec hf
  refine ⟨⟨dirRemove s.polars_dir id, dirPut s.archived_dir e⟩,
    ⟨dirPut (dirRemove s.polars_dir id) e,
      dirRemove (dirPut s.archived_dir e) id⟩, ?_, ?_, ?_, ?_⟩
  · simp [PolarService.archive, hf]
  · have hf2 : dirFind (dirPut s.archived_dir e) id = some e := by
      rw [← hstem]
      exact dirFind_put_self hext
    have hex2 : dirPathExists (dirRemove s.polars_dir id) id = false :=
      dirPathExists_remove_self
    simp [PolarService.restore, hf2, hex2]
  · rw [hf, ← hstem]
    exact dirFind_put_self hext
  · have hf3 : dirFind (dirPut (dirRemove s.polars_dir id) e) id = some e := by
      rw [← hstem]
      exact dirFind_put_self hext
    have hpe : dirPathExists (dirPut (dirRemove s.polars_dir id) e) id =
        true := dirPathExists_of_find hf3
    unfold PolarService.get
    dsimp only
    rw [hpe]
    simp only [if_true]
    rw [readAt_find_doc hf3 ho hd, hr]

/-- Witness for C3 at a concrete one-record state. -/
theorem archive_restore_roundtrip_witness :
    ∃ s1 s2, PolarService.archive oneActive "boat1" = .ok s1 ∧
      s1.restore "boat1" = .ok s2 ∧
      dirFind s2.polars_dir "boat1" = dirFind oneActive.polars_dir "boat1" ∧
      s2.get "boat1" =
        .ok (some { benchPolar (some "boat1") 3 with archived := false }) :=
  archive_restore_roundtrip oneActive "boat1"
    { benchPolar (some "boat1") 3 with archived := false } rfl rfl

/-! ## C7 — list -/

/-- Claim-side description of what `list` keeps from one directory entry: a
regular file with the `yaml` extension and readable metadata whose bytes
decode as a document, returned with `id` set from the filename stem and
`archived` set from the directory scanned. -/
def listEntryKeep (arch : Bool) (e : Entry) : Option Polar :=
  if e.metaOk && e.isFile && e.ext == some "yaml" then
    match e.data with
    | .doc p => some (overrideMeta p e.stem arch)
    | _ => none
  else none

lemma listDir_ok (d : List Entry) (arch : Bool)
    (h : ∀ e ∈ d, e.openFails = false) :
    listDir d arch = .ok (d.filterMap (listEntryKeep arch)) := by
  induction d with
  | nil => rfl
  | cons e rest ih =>
    have he : e.openFails = false := h e (List.mem_cons_self e rest)
    have ih' := ih fun x hx => h x (List.mem_cons_of_mem e hx)
    rw [List.filterMap_cons]
    cases hm : e.metaOk with
    | false => simp [listDir, listEntryKeep, hm, ih']
    | true =>
      cases hif : e.isFile with
      | false => simp [listDir, listEntryKeep, hm, hif, ih']
      | true =>
        cases hext : e.ext with
        | none => simp [listDir, listEntryKeep, hm, hif, hext, ih']
        | some x =>
          by_cases hx : x = "yaml"
          · subst hx
            cases hd : e.data with
            | doc p =>
              simp [listDir, listEntryKeep, hm, hif, hext, he, hd, ih']
            | blank =>
              simp [listDir, listEntryKeep, hm, hif, hext, he, hd, ih']
            | bad =>
              simp [listDir, listEntryKeep, hm, hif, hext, he, hd, ih']
          · simp [listDir, listEntryKeep, hm, hif, hext, hx, ih']

/-- C7: `list` scans only the archived directory when the flag is
`some true` and only the active directory when it is `none` or
`some false`; it returns exactly the regular `.yaml` files that decode,
`id` from the filename stem and `archived` from the directory scanned;
an entry that fails to decode or whose metadata is unreadable is skipped
while all other valid entries are still returned. (Stated for directories
in which no per-entry `File::open` fails — an open failure panics instead,
see C9.) -/
theorem list_cases (s : PolarService) (flag : Option Bool) :
    (flag = some true → (∀ e ∈ s.archived_dir, e.openFails = false) →
      s.list flag = .ok (s.archived_dir.filterMap (listEntryKeep true))) ∧
    ((flag = none ∨ flag = some false) →
      (∀ e ∈ s.polars_dir, e.openFails = false) →
      s.list flag = .ok (s.polars_dir.filterMap (listEntryKeep false))) := by
  constructor
  · rintro rfl h
    simpa [PolarService.list] using listDir_ok _ _ h
  · rintro (rfl | rfl) h <;>
      simpa [PolarService.list] using listDir_ok _ _ h

/-! ## C8 — find_by_polar_id -/

/-- C8: `find_by_polar_id` scans the active records first and scans the
archived records only when no active record matches, returning the first
match in enumeration order (or `none`); in particular an active match wins
over any archived record carrying the same secondary id. -/
theorem find_prefers_active (s : PolarService) (pid : ℕ)
    (h1 : ∀ e ∈ s.polars_dir, e.openFails = false)
    (h2 : ∀ e ∈ s.archived_dir, e.openFails = false) :
    s.find_by_polar_id pid = .ok (
      match (s.polars_dir.filterMap (listEntryKeep false)).find?
          (fun x => x.polar_id == pid) with
      | some p => some p
      | none => (s.archived_dir.filterMap (listEntryKeep true)).find?
          (fun x => x.polar_id == pid)) := by
  have hA : s.list none = .ok (s.polars_dir.filterMap (listEntryKeep false)) := by
    simpa [PolarService.list] using listDir_ok _ _ h1
  have hB : s.list (some true) =
      .ok (s.archived_dir.filterMap (listEntryKeep true)) := by
    simpa [PolarService.list] using listDir_ok _ _ h2
  unfold PolarService.find_by_polar_id
  simp only [hA, hB]
  cases hfind : (s.polars_dir.filterMap (listEntryKeep false)).find?
      (fun x => x.polar_id == pid) with
  | some p => simp [hfind]
  | none => simp [hfind]

/-- Witness for C8 at a concrete state where both directories hold a record
with secondary id 3 under different content: the active one is returned. -/
theorem find_prefers_active_witness :
    PolarService.find_by_polar_id bothDirs 3 = .ok (
      match (bothDirs.polars_dir.filterMap (listEntryKeep false)).find?
          (fun x => x.polar_id == 3) with
      | some p => some p
      | none => (bothDirs.archived_dir.filterMap (listEntryKeep true)).find?
          (fun x => x.polar_id == 3)) :=
  find_prefers_active bothDirs 3 (by decide) (by decide)

/-! ## C9 — error propagation in list -/

/-- A regular `.yaml` file whose `File::open` fails (say, permission
denied). -/
def unopenable : Entry :=
  { stem := "boat9", ext := some "yaml", isFile := true, metaOk := true,
    openFails := true, data := FileData.bad }

/-- A readable `.yaml` file whose bytes do not decode as a document. -/
def corrupt : Entry :=
  { stem := "bad1", ext := some "yaml", isFile := true, metaOk := true,
    openFails := false, data := FileData.bad }

/-- C9 (code bug evidence): `list` calls `File::open(entry.path()).unwrap()`,
so a per-entry open failure PANICS instead of being wrapped into the error
channel or skipped — contradicting the documented policy — while a decode
failure is indeed skipped with the remaining valid entries still
returned. -/
theorem list_open_failure_panics :
    PolarService.list { polars_dir := [unopenable], archived_dir := [] }
      none = .panicked ∧
    PolarService.list
      { polars_dir := [corrupt,
          writtenFile "boat1" (benchPolar (some "boat1") 3)],
        archived_dir := [] } none =
      .ok [overrideMeta (benchPolar (some "boat1") 3).serialized "boat1"
        false] :=
  ⟨rfl, rfl⟩

/-! ## C10 — archive onto an existing archived file -/

/-- C10: when `<id>.yaml` exists in both directories, `archive id` still
succeeds — it never returns `alreadyExists`, asymmetric with `restore` —
and the rename replaces the archived file: afterwards the only `<id>.yaml`
entry of the archived directory is the formerly-active one, the previously
archived record being destroyed. -/
theorem archive_overwrites_archived (s : PolarService) (id : String)
    (e : Entry) (ha : dirFind s.polars_dir id = some e)
    (hb : dirPathExists s.archived_dir id = true) :
    s.archive id = .ok { polars_dir := dirRemove s.polars_dir id,
                         archived_dir := dirPut s.archived_dir e } ∧
    dirFind (dirPut s.archived_dir e) id = some e ∧
    (∀ x ∈ dirPut s.archived_dir e, x.stem = id → x.ext = some "yaml" →
      x = e) := by
  obtain ⟨hmem, hstem, hext⟩ := dirFind_spec ha
  refine ⟨by simp [PolarService.archive, ha], ?_, ?_⟩
  · rw [← hstem]
    exact dirFind_put_self hext
  · intro x hx h1 h2
    rcases mem_dirPut.mp hx with ⟨hxd, hxn⟩ | rfl
    · exact absurd ⟨h1.trans hstem.symm, h2.trans hext.symm⟩ hxn
    · rfl

/-- Witness for C10 at the concrete both-directories state. -/
theorem archive_overwrites_archived_witness :
    PolarService.archive bothDirs "boat1" =
      .ok { polars_dir := dirRemove bothDirs.polars_dir "boat1",
            archived_dir := dirPut bothDirs.archived_dir
              (writtenFile "boat1" (benchPolar (some "boat1") 3)) } ∧
    dirFind (dirPut bothDirs.archived_dir
        (writtenFile "boat1" (benchPolar (some "boat1") 3))) "boat1" =
      some (writtenFile "boat1" (benchPolar (some "boat1") 3)) ∧
    (∀ x ∈ dirPut bothDirs.archived_dir
        (writtenFile "boat1" (benchPolar (some "boat1") 3)),
      x.stem = "boat1" → x.ext = some "yaml" →
      x = writtenFile "boat1" (benchPolar (some "boat1") 3)) :=
  archive_overwrites_archived bothDirs "boat1" _ rfl rfl
